import Mathlib

/-!
Verification development for the Jump Point Search (JPS) planner in
`src/ros/src/planner/graph_planner/src/jump_point_search.cpp`.

The algorithmic core (`plan`, `detectForceNeighbor`, `jump`) is embedded
directly from that file.  The base class `GlobalPlanner` (with `grid2Index`,
`getMotion`, the `Node` type, the comparators and
`_convertClosedListToPath`) is not part of the sources, so those pieces are
modelled from the specification, each marked `Modelled from the spec:` in
its doc comment.

Machine-arithmetic notes.  Cell costs are bytes (`unsigned char`), embedded
as `Nat`; coordinates and linear indices are C++ `int`s that stay far from
the 32-bit range on the inputs considered, so they are embedded as `Int`.
The obstacle threshold `lethal_cost_ * factor_` (a C++ `double`) is
embedded as a single scalar `thr`; the heuristic
`sqrt((x-gx)^2 + (y-gy)^2)` is embedded by its square, an exact `Int`,
which induces the same ordering of open-list entries because `sqrt` is
strictly monotone on nonnegative reals.  Recursion and the search loop are
embedded with explicit fuel: a `none` result means the fuel ran out before
the source code's recursion finished.
-/

namespace JPS

/-- Modelled from the spec: the `Node` value type of the missing
`GlobalPlanner` base header.  Fields `x`, `y` are grid coordinates, `id`
the linear index, `pid` the parent id, and `hsq` the squared Euclidean
distance to the goal (the source's `h_cost`, stored squared to stay in
`Int`). -/
structure Node where
  x : Int
  y : Int
  id : Int
  pid : Int
  hsq : Int
deriving DecidableEq, Repr

/-- The planner context: grid dimensions `nx`, `ny`, the cost grid
(the C++ `const unsigned char* costs_`, a total function so that reads at
any index are defined, as in the source no read is bounds-checked), the
obstacle threshold `thr` standing for `lethal_cost_ * factor_`, and the
goal node `goal_`. -/
structure Ctx where
  nx : Int
  ny : Int
  costs : Int → Nat
  thr : Nat
  goal : Node

/-- Modelled from the spec: `grid2Index` of the missing base header, the
linear index `id = y*nx + x`. -/
def grid2Index (ctx : Ctx) (x y : Int) : Int :=
  y * ctx.nx + x

/-- The number of cells `ns_ = nx * ny`. -/
def ns (ctx : Ctx) : Int :=
  ctx.nx * ctx.ny

/-- A cell index holds an obstacle: `costs_[i] >= lethal_cost_ * factor_`. -/
def obstacle (ctx : Ctx) (i : Int) : Prop :=
  ctx.thr ≤ ctx.costs i

instance (ctx : Ctx) (i : Int) : Decidable (obstacle ctx i) :=
  Nat.decLe _ _

/-- Boolean form of `obstacle`, for the embedded C++ boolean expressions. -/
def blockedB (ctx : Ctx) (i : Int) : Bool :=
  decide (obstacle ctx i)

/-- Modelled from the spec: Node equality (`operator==` and the closed-set
equality of the missing header) depends only on `id`. -/
def nodeEq (a b : Node) : Bool :=
  a.id == b.id

/-- Squared Euclidean distance from `(x, y)` to the goal: the square of the
source's `std::sqrt(std::pow(x - goal.x, 2) + std::pow(y - goal.y, 2))`. -/
def sqDist (x y : Int) (g : Node) : Int :=
  (x - g.x) ^ 2 + (y - g.y) ^ 2

/-- The sentinel `Node(-1, -1, -1, -1, -1, -1)`: no valid jump point. -/
def sentinel : Node :=
  ⟨-1, -1, -1, -1, -1⟩

/-- A motion node such as `Node(motion.x, 0, 1, 0, 0, 0)`: only its `x` and
`y` fields are ever read. -/
def mkMotion (dx dy : Int) : Node :=
  ⟨dx, dy, 0, 0, 0⟩

/-- The first block of `JumpPointSearch::jump`: step one cell along the
motion, set `id = grid2Index(x, y)`, `pid = point.id`, and the heuristic
toward the goal. -/
def stepNode (ctx : Ctx) (point motion : Node) : Node :=
  let x := point.x + motion.x
  let y := point.y + motion.y
  ⟨x, y, grid2Index ctx x y, point.id, sqDist x y ctx.goal⟩

/-- `JumpPointSearch::detectForceNeighbor`, embedded clause by clause.  The
three motion classes are mutually exclusive, so the source's three
sequential `if` blocks are a disjunction of guarded cases; `&&`/`||`
short-circuiting does not change the value of a pure boolean expression. -/
def detectForceNeighbor (ctx : Ctx) (point motion : Node) : Bool :=
  let x := point.x
  let y := point.y
  let xDir := motion.x
  let yDir := motion.y
  let horiz : Bool :=
    if xDir ≠ 0 ∧ yDir = 0 then
      (blockedB ctx (grid2Index ctx x (y + 1)) &&
        !blockedB ctx (grid2Index ctx (x + xDir) (y + 1))) ||
      (blockedB ctx (grid2Index ctx x (y - 1)) &&
        !blockedB ctx (grid2Index ctx (x + xDir) (y - 1)))
    else false
  let vert : Bool :=
    if xDir = 0 ∧ yDir ≠ 0 then
      (blockedB ctx (grid2Index ctx (x + 1) y) &&
        !blockedB ctx (grid2Index ctx (x + 1) (y + yDir))) ||
      (blockedB ctx (grid2Index ctx (x - 1) y) &&
        !blockedB ctx (grid2Index ctx (x - 1) (y + yDir)))
    else false
  let diag : Bool :=
    if xDir ≠ 0 ∧ yDir ≠ 0 then
      (blockedB ctx (grid2Index ctx (x - xDir) y) &&
        !blockedB ctx (grid2Index ctx (x - xDir) (y + yDir))) ||
      (blockedB ctx (grid2Index ctx x (y - yDir)) &&
        !blockedB ctx (grid2Index ctx (x + xDir) (y - yDir)))
    else false
  horiz || vert || diag

/-- `JumpPointSearch::jump`, with explicit fuel bounding the C++ recursion
depth (`none` = the source recursion would go deeper than `fuel`).  The
structure follows the source line by line: boundary/obstacle guard on the
linear id, goal check, diagonal probes of the two axis-aligned components
(short-circuited as in `a.id != -1 || b.id != -1`), forced-neighbor check,
else tail recursion in the same direction. -/
def jump (ctx : Ctx) : Nat → Node → Node → Option Node
  | 0, _, _ => none
  | fuel + 1, point, motion =>
    let np := stepNode ctx point motion
    if np.id < 0 ∨ ns ctx ≤ np.id ∨ obstacle ctx np.id then
      some sentinel
    else if nodeEq np ctx.goal then
      some np
    else if motion.x ≠ 0 ∧ motion.y ≠ 0 then
      match jump ctx fuel np (mkMotion motion.x 0) with
      | none => none
      | some a =>
        if a.id ≠ -1 then some np
        else
          match jump ctx fuel np (mkMotion 0 motion.y) with
          | none => none
          | some b =>
            if b.id ≠ -1 then some np
            else if detectForceNeighbor ctx np motion then some np
            else jump ctx fuel np motion
    else if detectForceNeighbor ctx np motion then some np
    else jump ctx fuel np motion

/-- Modelled from the spec: `getMotion()` of the missing base header, the
8 fixed unit motions (4 axis-aligned, 4 diagonal); the enumeration order is
not fixed by the spec. -/
def motions : List Node :=
  [mkMotion 0 1, mkMotion 1 0, mkMotion 0 (-1), mkMotion (-1) 0,
   mkMotion 1 1, mkMotion 1 (-1), mkMotion (-1) 1, mkMotion (-1) (-1)]

/-- Membership of an id in the closed list, the
`closed_list.find(n) != closed_list.end()` test with the spec-modelled
id-only equality. -/
def closedContains (closed : List Node) (i : Int) : Bool :=
  closed.any (fun n => n.id == i)

/-- Lookup of a closed node by id, used by the path reconstructor. -/
def lookupById (closed : List Node) (i : Int) : Option Node :=
  closed.find? (fun n => n.id == i)

/-- Modelled from the spec: `_convertClosedListToPath`.  Follow parent
links backward from the current node, looking each ancestor up in the
closed list by id, until a node with no valid parent (`pid < 0`, the
start) is reached; the result is in start-to-goal order.  `none` models
both a parent-lookup miss (the spec's internal-defect case) and a chain
longer than the fuel. -/
def backtrack (closed : List Node) : Nat → Node → Option (List Node)
  | 0, _ => none
  | fuel + 1, cur =>
    if cur.pid < 0 then some [cur]
    else
      match lookupById closed cur.pid with
      | none => none
      | some par => (backtrack closed fuel par).map (fun l => l ++ [cur])

/-- Modelled from the spec: popping the minimum of the open
`std::priority_queue` ordered by heuristic cost to the goal (the missing
`compare_cost`).  Ties are broken toward the earliest-pushed entry; the
spec leaves the tie-break unspecified. -/
def popMin : List Node → Option (Node × List Node)
  | [] => none
  | n :: rest =>
    match popMin rest with
    | none => some (n, [])
    | some (m, rest') =>
      if n.hsq ≤ m.hsq then some (n, rest) else some (m, n :: rest')

/-- The jump-point collection loop of `plan`: for each motion, run `jump`
from the current node; keep results with `id != -1` that are not in the
closed list, setting their `pid` to the current node's id and their
heuristic toward the goal.  `none` if some `jump` ran out of fuel. -/
def jpCollect (ctx : Ctx) (jfuel : Nat) (closed : List Node) (cur : Node) :
    List Node → Option (List Node)
  | [] => some []
  | m :: ms =>
    match jump ctx jfuel cur m with
    | none => none
    | some jp =>
      match jpCollect ctx jfuel closed cur ms with
      | none => none
      | some rest =>
        if jp.id ≠ -1 ∧ closedContains closed jp.id = false then
          some ({ jp with pid := cur.id, hsq := sqDist jp.x jp.y ctx.goal } :: rest)
        else some rest

/-- The push loop of `plan`: push staged jump points in order, stopping
after the first one equal to the goal (the source's `break`). -/
def takeUpToGoal (goal : Node) : List Node → List Node
  | [] => []
  | jp :: rest =>
    if nodeEq jp goal then [jp] else jp :: takeUpToGoal goal rest

/-- The per-iteration state of `plan`'s main loop: open list, closed list
(in insertion order) and the expansion trace. -/
structure St where
  openl : List Node
  closed : List Node
  expand : List Node
deriving DecidableEq, Repr

/-- Result of one iteration of `plan`'s main loop. -/
inductive StepRes where
  | done : Bool → List Node → StepRes
  | next : St → StepRes
  | stuck : StepRes
deriving DecidableEq, Repr

/-- One iteration of the `while (!open_list.empty())` loop of
`JumpPointSearch::plan`: pop the minimum-cost node; discard it if its id
is already closed; if it is the goal, insert it into the closed list and
reconstruct the path; otherwise collect jump points over all motions, push
them (stopping at the goal) and close the current node.  `stuck` means a
`jump` call ran out of fuel. -/
def planStep (ctx : Ctx) (jfuel : Nat) (s : St) : StepRes :=
  match popMin s.openl with
  | none => .done false []
  | some (cur, rest) =>
    if closedContains s.closed cur.id then .next ⟨rest, s.closed, s.expand⟩
    else if nodeEq cur ctx.goal then
      .done true
        ((backtrack (s.closed ++ [cur]) ((s.closed ++ [cur]).length + 1) cur).getD [])
    else
      match jpCollect ctx jfuel s.closed cur motions with
      | none => .stuck
      | some jps =>
        let pushed := takeUpToGoal ctx.goal jps
        .next ⟨rest ++ pushed, s.closed ++ [cur], s.expand ++ pushed⟩

/-- The main loop of `plan`, with fuel bounding the number of iterations. -/
def planLoop (ctx : Ctx) (jfuel : Nat) : Nat → St → Option (Bool × List Node)
  | 0, _ => none
  | fuel + 1, s =>
    match planStep ctx jfuel s with
    | .done b p => some (b, p)
    | .next s' => planLoop ctx jfuel fuel s'
    | .stuck => none

/-- The initial state of `plan`: open list and expansion trace seeded with
the start node, closed list empty. -/
def initSt (start : Node) : St :=
  ⟨[start], [], [start]⟩

/-- `JumpPointSearch::plan` over the embedded state machine. -/
def plan (ctx : Ctx) (jfuel fuel : Nat) (start : Node) :
    Option (Bool × List Node) :=
  planLoop ctx jfuel fuel (initSt start)

/-! ## Helper lemmas about `jump` -/

/-- Any non-sentinel node returned by `jump` has passed the
boundary/obstacle guard: its id is in `[0, ns)` and its cell is not an
obstacle. -/
theorem jump_some_safe (ctx : Ctx) :
    ∀ (fuel : Nat) (point motion r : Node),
      jump ctx fuel point motion = some r → r.id ≠ -1 →
      0 ≤ r.id ∧ r.id < ns ctx ∧ ¬ obstacle ctx r.id := by
  intro fuel
  induction fuel with
  | zero =>
    intro p m r h _
    simp [jump] at h
  | succ f ih =>
    intro p m r h hr
    rw [jump] at h
    split at h
    · rename_i hguard
      rw [Option.some_inj] at h
      subst h
      exact absurd rfl hr
    · rename_i hguard
      push_neg at hguard
      obtain ⟨hg0, hg1, hg2⟩ := hguard
      split at h
      · rw [Option.some_inj] at h
        subst h
        exact ⟨hg0, hg1, hg2⟩
      · split at h
        · split at h
          · exact absurd h (by simp)
          · split at h
            · rw [Option.some_inj] at h
              subst h
              exact ⟨hg0, hg1, hg2⟩
            · split at h
              · exact absurd h (by simp)
              · split at h
                · rw [Option.some_inj] at h
                  subst h
                  exact ⟨hg0, hg1, hg2⟩
                · split at h
                  · rw [Option.some_inj] at h
                    subst h
                    exact ⟨hg0, hg1, hg2⟩
                  · exact ih _ _ _ h hr
        · split at h
          · rw [Option.some_inj] at h
            subst h
            exact ⟨hg0, hg1, hg2⟩
          · exact ih _ _ _ h hr

/-- Unfolding lemma: when the stepped-to cell's linear id fails the
boundary test or its cell is an obstacle, `jump` returns the sentinel. -/
theorem jump_guard_sentinel (ctx : Ctx) (fuel : Nat) (point motion : Node)
    (h : (stepNode ctx point motion).id < 0 ∨
      ns ctx ≤ (stepNode ctx point motion).id ∨
      obstacle ctx (stepNode ctx point motion).id) :
    jump ctx (fuel + 1) point motion = some sentinel := by
  rw [jump]
  simp only [if_pos h]

/-! ## C1 -/

/-- C1 fixture: a 3×4 grid (`ns = 12`), threshold 253, all cells free
except linear index 8 (cost 255); goal at `(2,3)` (id 11). -/
def ctxC1 : Ctx :=
  ⟨3, 4, fun i => if i = 8 then 255 else 0, 253, ⟨2, 3, 11, -1, 0⟩⟩

/-- C1 fixture: current node `(0,2)` (id 6), on the left grid border. -/
def pC1 : Node := ⟨0, 2, 6, -1, 0⟩

/-- Claim C1, counterexample.  From in-grid node `(0,2)` with motion
`(-1,0)` the stepped-to cell `(-1,2)` lies outside the grid (`x < 0`), yet
`jump` does not return the sentinel: the linear index `2*3 + (-1) = 5`
wraps into row 1 and passes the bounds test, and a forced-neighbor pattern
there makes `jump` return the out-of-grid cell as a jump point. -/
theorem claim_C1_counterexample :
    (stepNode ctxC1 pC1 (mkMotion (-1) 0)).x < 0 ∧
    0 ≤ pC1.x ∧ pC1.x < ctxC1.nx ∧ 0 ≤ pC1.y ∧ pC1.y < ctxC1.ny ∧
    jump ctxC1 5 pC1 (mkMotion (-1) 0) = some ⟨-1, 2, 5, 6, 10⟩ ∧
    (⟨-1, 2, 5, 6, 10⟩ : Node).id ≠ -1 := by
  decide

/-- Claim C1, amended: the boundary rejection in `jump` is decided by the
linear index alone.  If the stepped-to cell's id `y*nx + x` lies outside
`[0, nx*ny)`, or the cost at that id is at least the obstacle threshold,
then `jump` returns the sentinel; out-of-grid coordinates whose linear id
falls inside `[0, nx*ny)` are not rejected, and only the direct read at
the stepped-to id is guarded by this test. -/
theorem claim_C1_theorem (ctx : Ctx) (fuel : Nat) (point motion : Node)
    (h : (stepNode ctx point motion).id < 0 ∨
      ns ctx ≤ (stepNode ctx point motion).id ∨
      obstacle ctx (stepNode ctx point motion).id) :
    jump ctx (fuel + 1) point motion = some sentinel :=
  jump_guard_sentinel ctx fuel point motion h

/-- Witness for the amended C1: stepping from `(2,3)` with motion `(0,1)`
leaves the grid with linear id `12 = ns`, and `jump` returns the
sentinel. -/
theorem claim_C1_witness :
    jump ctxC1 4 ⟨0, 3, 9, -1, 0⟩ (mkMotion 0 1) = some sentinel :=
  claim_C1_theorem ctxC1 3 ⟨0, 3, 9, -1, 0⟩ (mkMotion 0 1) (by decide)

/-! ## C9 -/

/-- C9 fixture: a 3×4 grid, threshold 253, all cells free except linear
index 6 (cost 255); goal at `(1,2)` (id 7). -/
def ctxC9 : Ctx :=
  ⟨3, 4, fun i => if i = 6 then 255 else 0, 253, ⟨1, 2, 7, -1, 0⟩⟩

/-- C9 fixture: current node `(2,0)` (id 2), on the right grid border. -/
def pC9 : Node := ⟨2, 0, 2, -1, 0⟩

/-- Claim C9: the out-of-bounds rejection is decided solely by the linear
index.  From the in-grid node `(2,0)` with motion `(1,0)`, the stepped-to
cell `(3,0)` has `x = nx` (outside the grid), yet its linear id
`0*3 + 3 = 3` falls inside `[0, 12)` — the address of cell `(0,1)` in the
next row — and `jump` treats it as an ordinary cell: it reads its cost,
runs the forced-neighbor test there, and returns it as a non-sentinel
jump point. -/
theorem claim_C9_theorem :
    ctxC9.nx = 3 ∧
    0 ≤ pC9.x ∧ pC9.x < ctxC9.nx ∧ 0 ≤ pC9.y ∧ pC9.y < ctxC9.ny ∧
    (stepNode ctxC9 pC9 (mkMotion 1 0)).x = ctxC9.nx ∧
    0 ≤ (stepNode ctxC9 pC9 (mkMotion 1 0)).id ∧
    (stepNode ctxC9 pC9 (mkMotion 1 0)).id < ns ctxC9 ∧
    jump ctxC9 5 pC9 (mkMotion 1 0) = some (stepNode ctxC9 pC9 (mkMotion 1 0)) ∧
    (stepNode ctxC9 pC9 (mkMotion 1 0)).id ≠ -1 := by
  decide

/-! ## C6 -/

/-- Claim C6: whenever `jump` returns a node with `id ≠ -1`, that id lies
in `[0, nx*ny)` and the cost-grid value at it is strictly below the
obstacle threshold — `jump` never returns a non-sentinel node sitting on
an obstacle cell. -/
theorem claim_C6_theorem (ctx : Ctx) (fuel : Nat) (point motion r : Node)
    (h : jump ctx fuel point motion = some r) (hr : r.id ≠ -1) :
    0 ≤ r.id ∧ r.id < ns ctx ∧ ctx.costs r.id < ctx.thr := by
  obtain ⟨h0, h1, h2⟩ := jump_some_safe ctx fuel point motion r h hr
  exact ⟨h0, h1, Nat.lt_of_not_le h2⟩

/-- C6 fixture: a 3×3 obstacle-free grid with goal `(2,2)` (id 8). -/
def ctxC6 : Ctx :=
  ⟨3, 3, fun _ => 0, 253, ⟨2, 2, 8, -1, 0⟩⟩

/-- Witness for C6: from `(0,2)` with motion `(1,0)` the jump lands on the
goal `(2,2)`; its id 8 is in `[0,9)` and its cost 0 is below the
threshold. -/
theorem claim_C6_witness :
    0 ≤ (⟨2, 2, 8, 7, 0⟩ : Node).id ∧
    (⟨2, 2, 8, 7, 0⟩ : Node).id < ns ctxC6 ∧
    ctxC6.costs (⟨2, 2, 8, 7, 0⟩ : Node).id < ctxC6.thr :=
  claim_C6_theorem ctxC6 3 ⟨0, 2, 6, -1, 0⟩ (mkMotion 1 0) ⟨2, 2, 8, 7, 0⟩
    (by decide) (by decide)

/-! ## C2 -/

/-- C2 notch fixture: a 3×3 grid, threshold 253, all cells free except
`(1,2)` (linear id 7, cost 255); goal at `(2,2)` (id 8). -/
def ctxC2 : Ctx :=
  ⟨3, 3, fun i => if i = 7 then 255 else 0, 253, ⟨2, 2, 8, -1, 0⟩⟩

/-- C2 notch fixture: the queried cell `(1,1)` (id 4); the cell above it,
`(1,2)`, is an obstacle and the cell ahead-and-above, `(2,2)`, is open. -/
def pC2 : Node := ⟨1, 1, 4, -1, 0⟩

/-- Claim C2: `detectForceNeighbor` returns true exactly when one of the
six blocked/open conditions holds — two for horizontal motion (above /
below), two for vertical motion (the rule rotated 90°), two for diagonal
motion — where blocked means cost at least the obstacle threshold and
open means cost below it; and on the 3×3 notch fixture with motion
`(+1,0)`, cell `(x,y+1)` an obstacle and `(x+1,y+1)` open, it returns
true. -/
theorem claim_C2_theorem :
    (∀ (ctx : Ctx) (p m : Node),
      detectForceNeighbor ctx p m = true ↔
        ((m.x ≠ 0 ∧ m.y = 0 ∧
          ((obstacle ctx (grid2Index ctx p.x (p.y + 1)) ∧
            ¬ obstacle ctx (grid2Index ctx (p.x + m.x) (p.y + 1))) ∨
           (obstacle ctx (grid2Index ctx p.x (p.y - 1)) ∧
            ¬ obstacle ctx (grid2Index ctx (p.x + m.x) (p.y - 1))))) ∨
         (m.x = 0 ∧ m.y ≠ 0 ∧
          ((obstacle ctx (grid2Index ctx (p.x + 1) p.y) ∧
            ¬ obstacle ctx (grid2Index ctx (p.x + 1) (p.y + m.y))) ∨
           (obstacle ctx (grid2Index ctx (p.x - 1) p.y) ∧
            ¬ obstacle ctx (grid2Index ctx (p.x - 1) (p.y + m.y))))) ∨
         (m.x ≠ 0 ∧ m.y ≠ 0 ∧
          ((obstacle ctx (grid2Index ctx (p.x - m.x) p.y) ∧
            ¬ obstacle ctx (grid2Index ctx (p.x - m.x) (p.y + m.y))) ∨
           (obstacle ctx (grid2Index ctx p.x (p.y - m.y)) ∧
            ¬ obstacle ctx (grid2Index ctx (p.x + m.x) (p.y - m.y))))))) ∧
    (obstacle ctxC2 (grid2Index ctxC2 pC2.x (pC2.y + 1)) ∧
      ¬ obstacle ctxC2 (grid2Index ctxC2 (pC2.x + 1) (pC2.y + 1)) ∧
      detectForceNeighbor ctxC2 pC2 (mkMotion 1 0) = true) := by
  constructor
  · intro ctx p m
    by_cases hx : m.x = 0 <;> by_cases hy : m.y = 0 <;>
      simp [detectForceNeighbor, blockedB, hx, hy, decide_eq_true_iff]
  · decide

/-! ## C3 -/

/-- Claim C3: for a diagonal motion whose stepped-to cell passes the
boundary/obstacle guard and is not the goal, `jump` probes the two
axis-aligned component directions from that cell; it returns the
stepped-to cell itself exactly when one of the probes yields a
non-sentinel node or the forced-neighbor test holds there, and otherwise
recurses diagonally from that cell.  The probe hypotheses supply the
probes' results at the inner recursion depth. -/
theorem claim_C3_theorem (ctx : Ctx) (fuel : Nat) (point motion a b : Node)
    (hx : motion.x ≠ 0) (hy : motion.y ≠ 0)
    (hguard : ¬((stepNode ctx point motion).id < 0 ∨
      ns ctx ≤ (stepNode ctx point motion).id ∨
      obstacle ctx (stepNode ctx point motion).id))
    (hgoal : nodeEq (stepNode ctx point motion) ctx.goal = false)
    (ha : jump ctx fuel (stepNode ctx point motion) (mkMotion motion.x 0) = some a)
    (hb : jump ctx fuel (stepNode ctx point motion) (mkMotion 0 motion.y) = some b) :
    jump ctx (fuel + 1) point motion =
      if a.id ≠ -1 ∨ b.id ≠ -1 ∨
          detectForceNeighbor ctx (stepNode ctx point motion) motion = true
      then some (stepNode ctx point motion)
      else jump ctx fuel (stepNode ctx point motion) motion := by
  rw [jump]
  simp only [if_neg hguard, hgoal, Bool.false_eq_true, if_false,
    if_pos (And.intro hx hy), ha, hb]
  by_cases hA : a.id = -1
  · by_cases hB : b.id = -1
    · by_cases hd : detectForceNeighbor ctx (stepNode ctx point motion) motion = true
      · simp [hA, hB, hd]
      · simp [hA, hB, hd]
    · simp [hA, hB]
  · simp [hA]

/-- C3 fixture: a 3×3 grid with obstacles at `(2,1)` (id 5) and `(1,2)`
(id 7), goal `(0,0)` (id 0). -/
def ctxC3 : Ctx :=
  ⟨3, 3, fun i => if i = 5 ∨ i = 7 then 255 else 0, 253, ⟨0, 0, 0, -1, 0⟩⟩

/-- C3 fixture: current node `(0,0)` (id 0). -/
def pC3 : Node := ⟨0, 0, 0, -1, 0⟩

/-- Witness for C3 at the fixture: diagonal motion `(1,1)` from `(0,0)`
steps to the open non-goal cell `(1,1)`; both axis probes hit obstacles
immediately and return the sentinel. -/
theorem claim_C3_witness :
    jump ctxC3 5 pC3 (mkMotion 1 1) =
      if sentinel.id ≠ -1 ∨ sentinel.id ≠ -1 ∨
          detectForceNeighbor ctxC3 (stepNode ctxC3 pC3 (mkMotion 1 1)) (mkMotion 1 1) = true
      then some (stepNode ctxC3 pC3 (mkMotion 1 1))
      else jump ctxC3 4 (stepNode ctxC3 pC3 (mkMotion 1 1)) (mkMotion 1 1) :=
  claim_C3_theorem ctxC3 4 pC3 (mkMotion 1 1) sentinel sentinel
    (by decide) (by decide) (by decide) (by decide) (by decide) (by decide)

/-! ## C7 -/

/-- Claim C7: for every cost grid, calling `plan` with start equal to the
goal (same coordinates and id) returns `found = true` with the single-cell
path `[start]`, and the goal is popped on the very first iteration of the
search loop (the first `planStep` already finishes the search). -/
theorem claim_C7_theorem (ctx : Ctx) (start : Node) (jfuel fuel : Nat)
    (hpid : start.pid < 0)
    (hx : start.x = ctx.goal.x) (hy : start.y = ctx.goal.y)
    (hid : start.id = ctx.goal.id) :
    planStep ctx jfuel (initSt start) = .done true [start] ∧
    plan ctx jfuel (fuel + 1) start = some (true, [start]) := by
  constructor
  · simp [planStep, initSt, popMin, closedContains, nodeEq, hid,
      backtrack, hpid]
  · simp [plan, planLoop, planStep, initSt, popMin, closedContains, nodeEq,
      hid, backtrack, hpid]

/-- C7 fixture: a 2×2 obstacle-free grid with start = goal = `(1,1)`
(id 3). -/
def ctxC7 : Ctx :=
  ⟨2, 2, fun _ => 0, 253, ⟨1, 1, 3, -1, 0⟩⟩

/-- Witness for C7: with start = goal = `(1,1)` on the 2×2 grid, `plan`
finishes on the first iteration with the single-cell path. -/
theorem claim_C7_witness :
    planStep ctxC7 3 (initSt ⟨1, 1, 3, -1, 0⟩) = .done true [⟨1, 1, 3, -1, 0⟩] ∧
    plan ctxC7 3 4 ⟨1, 1, 3, -1, 0⟩ = some (true, [⟨1, 1, 3, -1, 0⟩]) :=
  claim_C7_theorem ctxC7 ⟨1, 1, 3, -1, 0⟩ 3 3
    (by decide) (by decide) (by decide) (by decide)

/-! ## Characterization of one loop iteration -/

/-- Any iteration that continues the loop is either a lazy-deletion
discard of an already-closed pop, or an expansion that closes the popped
node and pushes its staged jump points. -/
theorem planStep_next (ctx : Ctx) (jfuel : Nat) (s s' : St)
    (h : planStep ctx jfuel s = .next s') :
    ∃ cur rest, popMin s.openl = some (cur, rest) ∧
      ((closedContains s.closed cur.id = true ∧ s' = ⟨rest, s.closed, s.expand⟩) ∨
       (closedContains s.closed cur.id = false ∧ nodeEq cur ctx.goal = false ∧
        ∃ jps, jpCollect ctx jfuel s.closed cur motions = some jps ∧
          s' = ⟨rest ++ takeUpToGoal ctx.goal jps, s.closed ++ [cur],
                s.expand ++ takeUpToGoal ctx.goal jps⟩)) := by
  rw [planStep] at h
  split at h
  · exact absurd h (by simp)
  · rename_i cur rest hpop
    split at h
    · rename_i hcl
      refine ⟨cur, rest, hpop, Or.inl ⟨hcl, ?_⟩⟩
      injection h with h'
      exact h'.symm
    · rename_i hcl
      split at h
      · exact absurd h (by simp)
      · rename_i hg
        split at h
        · exact absurd h (by simp)
        · rename_i jps hjp
          refine ⟨cur, rest, hpop, Or.inr ⟨by simpa using hcl, by simpa using hg,
            jps, hjp, ?_⟩⟩
          injection h with h'
          exact h'.symm

/-- `closedContains` is false exactly when no closed node carries the
id. -/
theorem closedContains_false_iff (closed : List Node) (i : Int) :
    closedContains closed i = false ↔ ∀ n ∈ closed, n.id ≠ i := by
  simp [closedContains]

/-! ## C5 -/

/-- Claim C5: across any continuing loop iteration, (1) the closed set
only grows — a node once closed stays closed; (2) a popped node whose id
is already closed is discarded without expansion, leaving the closed set
and the expansion trace untouched and pushing nothing; (3) the closed set
changes only by appending the popped node, and only when its id was not
yet closed; (4) distinctness of closed ids is preserved, so each
coordinate is expanded at most once even though the open list may hold
several entries for it. -/
theorem claim_C5_theorem (ctx : Ctx) (jfuel : Nat) (s : St) :
    (∀ s', planStep ctx jfuel s = .next s' → ∀ n, n ∈ s.closed → n ∈ s'.closed) ∧
    (∀ cur rest, popMin s.openl = some (cur, rest) →
      closedContains s.closed cur.id = true →
      planStep ctx jfuel s = .next ⟨rest, s.closed, s.expand⟩) ∧
    (∀ s' cur rest, popMin s.openl = some (cur, rest) →
      planStep ctx jfuel s = .next s' → s'.closed ≠ s.closed →
      closedContains s.closed cur.id = false ∧ s'.closed = s.closed ++ [cur]) ∧
    (∀ s', planStep ctx jfuel s = .next s' →
      (s.closed.map Node.id).Nodup → (s'.closed.map Node.id).Nodup) := by
  refine ⟨?_, ?_, ?_, ?_⟩
  · intro s' h n hn
    obtain ⟨cur, rest, _, hcase⟩ := planStep_next ctx jfuel s s' h
    rcases hcase with ⟨_, rfl⟩ | ⟨_, _, _, _, rfl⟩
    · exact hn
    · exact List.mem_append_left _ hn
  · intro cur rest hpop hcl
    rw [planStep, hpop]
    simp [hcl]
  · intro s' cur rest hpop h hne
    obtain ⟨cur', rest', hpop', hcase⟩ := planStep_next ctx jfuel s s' h
    rw [hpop] at hpop'
    obtain ⟨rfl, rfl⟩ : cur = cur' ∧ rest = rest' := by
      simpa using hpop'
    rcases hcase with ⟨_, rfl⟩ | ⟨hcl, _, _, _, rfl⟩
    · exact absurd rfl hne
    · exact ⟨hcl, rfl⟩
  · intro s' h hnd
    obtain ⟨cur, rest, _, hcase⟩ := planStep_next ctx jfuel s s' h
    rcases hcase with ⟨_, rfl⟩ | ⟨hcl, _, _, _, rfl⟩
    · exact hnd
    · have hnotin : cur.id ∉ s.closed.map Node.id := by
        rw [closedContains_false_iff] at hcl
        simp only [List.mem_map]
        rintro ⟨n, hn, hid⟩
        exact hcl n hn hid
      have hnd2 : (s.closed.map Node.id ++ [cur.id]).Nodup := by
        rw [List.nodup_append]
        refine ⟨hnd, List.nodup_singleton _, ?_⟩
        intro a ha
        simp only [List.mem_singleton]
        intro hEq
        exact hnotin (hEq ▸ ha)
      simpa using hnd2

/-- C5 fixture: a 2×2 obstacle-free grid with goal `(0,0)` (id 0). -/
def ctxC5 : Ctx :=
  ⟨2, 2, fun _ => 0, 253, ⟨0, 0, 0, -1, 0⟩⟩

/-- C5 fixture: the node `(1,1)` (id 3). -/
def nC5 : Node := ⟨1, 1, 3, -1, 2⟩

/-- Witness for C5 at concrete states: a pop whose id is already closed
is discarded, keeping the closed node; an expansion from an empty closed
set appends the popped node and preserves id-distinctness. -/
theorem claim_C5_witness :
    (nC5 ∈ St.closed ⟨[], [nC5], []⟩) ∧
    (planStep ctxC5 20 ⟨[nC5], [nC5], []⟩ = .next ⟨[], [nC5], []⟩) ∧
    (closedContains ([] : List Node) nC5.id = false ∧
      St.closed ⟨[⟨-2, 1, 0, 3, 5⟩], [nC5], [⟨-2, 1, 0, 3, 5⟩]⟩ = [] ++ [nC5]) ∧
    ((St.closed ⟨[], [nC5], []⟩ |>.map Node.id).Nodup) := by
  refine ⟨?_, ?_, ?_, ?_⟩
  · exact (claim_C5_theorem ctxC5 20 ⟨[nC5], [nC5], []⟩).1
      ⟨[], [nC5], []⟩ (by decide) nC5 (by decide)
  · exact (claim_C5_theorem ctxC5 20 ⟨[nC5], [nC5], []⟩).2.1
      nC5 [] (by decide) (by decide)
  · exact (claim_C5_theorem ctxC5 20 ⟨[nC5], [], []⟩).2.2.1
      ⟨[⟨-2, 1, 0, 3, 5⟩], [nC5], [⟨-2, 1, 0, 3, 5⟩]⟩ nC5 [] (by decide)
      (by decide) (by decide)
  · exact (claim_C5_theorem ctxC5 20 ⟨[nC5], [nC5], []⟩).2.2.2
      ⟨[], [nC5], []⟩ (by decide) (by decide)

/-! ## C10 -/

/-- The coordinates whose cost-grid indices `detectForceNeighbor` may
read, per motion class, exactly as they appear in the source's six
conditions. -/
def fnReadCoords (point motion : Node) : List (Int × Int) :=
  let x := point.x
  let y := point.y
  let dx := motion.x
  let dy := motion.y
  (if dx ≠ 0 ∧ dy = 0 then
    [(x, y + 1), (x + dx, y + 1), (x, y - 1), (x + dx, y - 1)] else []) ++
  (if dx = 0 ∧ dy ≠ 0 then
    [(x + 1, y), (x + 1, y + dy), (x - 1, y), (x - 1, y + dy)] else []) ++
  (if dx ≠ 0 ∧ dy ≠ 0 then
    [(x - dx, y), (x - dx, y + dy), (x, y - dy), (x + dx, y - dy)] else [])

/-- A linear index built from in-grid coordinates lies in `[0, ns)`. -/
theorem grid2Index_bounds (ctx : Ctx) (x y : Int)
    (hx0 : 0 ≤ x) (hx1 : x < ctx.nx) (hy0 : 0 ≤ y) (hy1 : y < ctx.ny) :
    0 ≤ grid2Index ctx x y ∧ grid2Index ctx x y < ns ctx := by
  unfold grid2Index ns
  constructor
  · have : 0 ≤ y * ctx.nx := mul_nonneg hy0 (le_trans hx0 hx1.le)
    omega
  · nlinarith [mul_nonneg (by omega : (0:ℤ) ≤ ctx.ny - 1 - y)
      (by omega : (0:ℤ) ≤ ctx.nx)]

/-- Claim C10: `detectForceNeighbor` performs no bounds checking.  Its
value depends only on the cost grid at the indices of `fnReadCoords`
(frame property grounding that read set); when the queried cell is
interior (`1 ≤ x ≤ nx-2`, `1 ≤ y ≤ ny-2`), every read coordinate is
in-grid and its index lies in `[0, nx*ny)`; and for every in-grid cell on
the border, some unit motion makes it read a coordinate whose index is
outside `[0, nx*ny)` or whose x-coordinate leaves `[0, nx)` so the index
wraps into a different row. -/
theorem claim_C10_theorem :
    (∀ (ctx : Ctx) (f2 : Int → Nat) (p m : Node),
      (∀ xy ∈ fnReadCoords p m,
        ctx.costs (grid2Index ctx xy.1 xy.2) = f2 (grid2Index ctx xy.1 xy.2)) →
      detectForceNeighbor ctx p m =
        detectForceNeighbor { ctx with costs := f2 } p m) ∧
    (∀ (ctx : Ctx) (p m : Node), m ∈ motions →
      1 ≤ p.x → p.x ≤ ctx.nx - 2 → 1 ≤ p.y → p.y ≤ ctx.ny - 2 →
      ∀ xy ∈ fnReadCoords p m,
        0 ≤ xy.1 ∧ xy.1 < ctx.nx ∧ 0 ≤ xy.2 ∧ xy.2 < ctx.ny ∧
        0 ≤ grid2Index ctx xy.1 xy.2 ∧ grid2Index ctx xy.1 xy.2 < ns ctx) ∧
    (∀ (ctx : Ctx) (p : Node),
      0 ≤ p.x → p.x < ctx.nx → 0 ≤ p.y → p.y < ctx.ny →
      (p.x = 0 ∨ p.x = ctx.nx - 1 ∨ p.y = 0 ∨ p.y = ctx.ny - 1) →
      ∃ m ∈ motions, ∃ xy ∈ fnReadCoords p m,
        grid2Index ctx xy.1 xy.2 < 0 ∨ ns ctx ≤ grid2Index ctx xy.1 xy.2 ∨
        xy.1 < 0 ∨ ctx.nx ≤ xy.1) := by
  refine ⟨?_, ?_, ?_⟩
  · intro ctx f2 p m h
    by_cases h1 : m.x = 0 <;> by_cases h2 : m.y = 0 <;>
      simp only [fnReadCoords, h1, h2, ne_eq, not_true_eq_false,
        not_false_eq_true, false_and, and_false, true_and, and_true, if_true,
        if_false, List.append_nil, List.nil_append, List.mem_cons,
        List.not_mem_nil, or_false, forall_eq_or_imp, forall_eq] at h <;>
      simp only [detectForceNeighbor, blockedB, obstacle, grid2Index, h1, h2,
        ne_eq, not_true_eq_false, not_false_eq_true, false_and, and_false,
        true_and, and_true, if_true, if_false, Bool.or_eq_true] <;>
      simp_all [grid2Index]
  · intro ctx p m hm ha hb hc hd xy hxy
    have hco : 0 ≤ xy.1 ∧ xy.1 < ctx.nx ∧ 0 ≤ xy.2 ∧ xy.2 < ctx.ny := by
      fin_cases hm <;> simp [fnReadCoords, mkMotion] at hxy <;>
        rcases hxy with rfl | rfl | rfl | rfl <;>
        exact ⟨by omega, by omega, by omega, by omega⟩
    obtain ⟨k1, k2, k3, k4⟩ := hco
    have hix := grid2Index_bounds ctx xy.1 xy.2 k1 k2 k3 k4
    exact ⟨k1, k2, k3, k4, hix.1, hix.2⟩
  · intro ctx p h1 h2 h3 h4 hb
    rcases hb with hx0 | hx1 | hy0 | hy1
    · refine ⟨mkMotion 0 1, by decide, (p.x - 1, p.y), ?_, ?_⟩
      · simp [fnReadCoords, mkMotion]
      · right; right; left; omega
    · refine ⟨mkMotion 0 1, by decide, (p.x + 1, p.y), ?_, ?_⟩
      · simp [fnReadCoords, mkMotion]
      · right; right; right; omega
    · refine ⟨mkMotion 1 0, by decide, (p.x, p.y - 1), ?_, ?_⟩
      · simp [fnReadCoords, mkMotion]
      · left
        show (p.y - 1) * ctx.nx + p.x < 0
        rw [hy0]
        have e : (0 - 1) * ctx.nx = -ctx.nx := by ring
        linarith [e]
    · refine ⟨mkMotion 1 0, by decide, (p.x, p.y + 1), ?_, ?_⟩
      · simp [fnReadCoords, mkMotion]
      · right; left
        show ns ctx ≤ (p.y + 1) * ctx.nx + p.x
        rw [hy1]
        have e : (ctx.ny - 1 + 1) * ctx.nx = ctx.nx * ctx.ny := by ring
        unfold ns
        linarith [e]

/-- C10 fixture: a 3×3 grid with an obstacle at `(1,2)` (id 7). -/
def ctxC10 : Ctx :=
  ⟨3, 3, fun i => if i = 7 then 255 else 0, 253, ⟨2, 2, 8, -1, 0⟩⟩

/-- An alternative cost grid agreeing with `ctxC10`'s only on the indices
`detectForceNeighbor` reads from `(1,1)` with motion `(1,0)`. -/
def costsC10 : Int → Nat :=
  fun i => if i = 7 then 255 else if i = 8 ∨ i = 1 ∨ i = 2 then 0 else 99

/-- Witness for C10: the frame property at `(1,1)`/motion `(1,0)` on the
fixture; interior-read bounds at the interior cell `(1,1)`; and the
existence of an out-of-range or wrapping read for the border cell
`(0,1)`. -/
theorem claim_C10_witness :
    (detectForceNeighbor ctxC10 ⟨1, 1, 4, -1, 0⟩ (mkMotion 1 0) =
      detectForceNeighbor { ctxC10 with costs := costsC10 } ⟨1, 1, 4, -1, 0⟩
        (mkMotion 1 0)) ∧
    (∀ xy ∈ fnReadCoords ⟨1, 1, 4, -1, 0⟩ (mkMotion 1 0),
      0 ≤ xy.1 ∧ xy.1 < ctxC10.nx ∧ 0 ≤ xy.2 ∧ xy.2 < ctxC10.ny ∧
      0 ≤ grid2Index ctxC10 xy.1 xy.2 ∧ grid2Index ctxC10 xy.1 xy.2 < ns ctxC10) ∧
    (∃ m ∈ motions, ∃ xy ∈ fnReadCoords ⟨0, 1, 3, -1, 0⟩ m,
      grid2Index ctxC10 xy.1 xy.2 < 0 ∨ ns ctxC10 ≤ grid2Index ctxC10 xy.1 xy.2 ∨
      xy.1 < 0 ∨ ctxC10.nx ≤ xy.1) := by
  refine ⟨?_, ?_, ?_⟩
  · exact claim_C10_theorem.1 ctxC10 costsC10 ⟨1, 1, 4, -1, 0⟩ (mkMotion 1 0)
      (by decide)
  · exact claim_C10_theorem.2.1 ctxC10 ⟨1, 1, 4, -1, 0⟩ (mkMotion 1 0)
      (by decide) (by decide) (by decide) (by decide) (by decide)
  · exact claim_C10_theorem.2.2 ctxC10 ⟨0, 1, 3, -1, 0⟩
      (by decide) (by decide) (by decide) (by decide) (Or.inl (by decide))

/-! ## C8 -/

/-- C8 fixture: a 1×5 grid (single column), threshold 253, obstacles at
`(0,2)` (id 2) and `(0,3)` (id 3), goal `(0,0)` (id 0). -/
def ctxC8 : Ctx :=
  ⟨1, 5, fun i => if i = 2 ∨ i = 3 then 255 else 0, 253, ⟨0, 0, 0, -1, 0⟩⟩

/-- C8 fixture: the in-grid start cell `(0,4)` (id 4). -/
def pC8 : Node := ⟨0, 4, 4, -1, 0⟩

/-- On the 1×5 fixture, the diagonal walk with motion `(1,-1)` never
terminates: each step moves to `(x+1, y-1)` whose linear id
`(y-1)*1 + (x+1)` stays 4 (in bounds, cost 0), the goal id 0 is never
reached, both axis probes are cut off at once (the horizontal probe's id
hits `ns = 5`, the vertical probe's id 3 is an obstacle), and the
forced-neighbor test is false, so the recursion continues for ever: no
fuel suffices. -/
theorem jump_nx1_diag_none :
    ∀ (fuel : Nat) (p : Node), 0 ≤ p.x → p.x + p.y = 4 →
      jump ctxC8 fuel p (mkMotion 1 (-1)) = none := by
  intro fuel
  induction fuel with
  | zero =>
    intro p _ _
    rfl
  | succ f ih =>
    rintro ⟨px, py, pid, ppid, phsq⟩ hx hs
    simp only at hx hs
    have hpy : py = 4 - px := by omega
    subst hpy
    have hid : (stepNode ctxC8 ⟨px, 4 - px, pid, ppid, phsq⟩
        (mkMotion 1 (-1))).id = 4 := by
      simp [stepNode, grid2Index, ctxC8, mkMotion]
      ring
    have hguard :
        ¬((stepNode ctxC8 ⟨px, 4 - px, pid, ppid, phsq⟩ (mkMotion 1 (-1))).id < 0 ∨
          ns ctxC8 ≤ (stepNode ctxC8 ⟨px, 4 - px, pid, ppid, phsq⟩
            (mkMotion 1 (-1))).id ∨
          obstacle ctxC8 (stepNode ctxC8 ⟨px, 4 - px, pid, ppid, phsq⟩
            (mkMotion 1 (-1))).id) := by
      rw [hid]
      decide
    have hgoal : nodeEq (stepNode ctxC8 ⟨px, 4 - px, pid, ppid, phsq⟩
        (mkMotion 1 (-1))) ctxC8.goal = false := by
      simp only [nodeEq, hid]
      decide
    rw [jump]
    simp only [if_neg hguard, hgoal, Bool.false_eq_true, if_false,
      if_pos (by decide : (mkMotion 1 (-1)).x ≠ 0 ∧ (mkMotion 1 (-1)).y ≠ 0)]
    rw [show (mkMotion 1 (-1)).x = 1 from rfl,
      show (mkMotion 1 (-1)).y = (-1 : Int) from rfl]
    rcases f with _ | f2
    · rfl
    · have hpx : jump ctxC8 (f2 + 1)
          (stepNode ctxC8 ⟨px, 4 - px, pid, ppid, phsq⟩ (mkMotion 1 (-1)))
          (mkMotion 1 0) = some sentinel := by
        apply jump_guard_sentinel
        right; left
        simp [stepNode, grid2Index, ctxC8, mkMotion, ns]
        ring_nf
        omega
      have hpyb : jump ctxC8 (f2 + 1)
          (stepNode ctxC8 ⟨px, 4 - px, pid, ppid, phsq⟩ (mkMotion 1 (-1)))
          (mkMotion 0 (-1)) = some sentinel := by
        apply jump_guard_sentinel
        right; right
        have h3 : (stepNode ctxC8 (stepNode ctxC8 ⟨px, 4 - px, pid, ppid, phsq⟩
            (mkMotion 1 (-1))) (mkMotion 0 (-1))).id = 3 := by
          simp [stepNode, grid2Index, ctxC8, mkMotion]
          ring
        rw [h3]
        decide
      rw [hpx, hpyb]
      have hdf : detectForceNeighbor ctxC8
          (stepNode ctxC8 ⟨px, 4 - px, pid, ppid, phsq⟩ (mkMotion 1 (-1)))
          (mkMotion 1 (-1)) = false := by
        simp [detectForceNeighbor, blockedB, obstacle, ctxC8, grid2Index,
          mkMotion, stepNode]
        ring_nf
        norm_num
      simp only [hdf, Bool.false_eq_true, if_false]
      simp only [sentinel, ne_eq, not_true_eq_false, if_false]
      exact ih _ (by simp [stepNode, mkMotion]; omega)
        (by simp [stepNode, mkMotion]; omega)

/-- Claim C8: the claim asserts `jump` always terminates with recursion
depth bounded by the grid's diagonal cell count; the code violates it.
On the 1×5 grid with obstacles at ids 2 and 3, starting from the in-grid
cell `(0,4)` with the diagonal unit motion `(1,-1)`, the embedded `jump`
returns `none` for every fuel: the C++ recursion never terminates. -/
theorem claim_C8_theorem :
    0 ≤ pC8.x ∧ pC8.x < ctxC8.nx ∧ 0 ≤ pC8.y ∧ pC8.y < ctxC8.ny ∧
    ∀ fuel : Nat, jump ctxC8 fuel pC8 (mkMotion 1 (-1)) = none := by
  refine ⟨by decide, by decide, by decide, by decide, ?_⟩
  intro fuel
  exact jump_nx1_diag_none fuel pC8 (by decide) (by decide)

/-! ## Path-reconstruction lemmas -/

/-- A successful backward walk stays successful with more fuel. -/
theorem backtrack_fuel_mono (closed : List Node) :
    ∀ (f f' : Nat) (n : Node) (l : List Node), backtrack closed f n = some l →
      f ≤ f' → backtrack closed f' n = some l := by
  intro f
  induction f with
  | zero =>
    intro f' n l h
    simp [backtrack] at h
  | succ g ih =>
    intro f' n l h hle
    rcases f' with _ | f2
    · omega
    · by_cases hpid : n.pid < 0
      · rw [backtrack, if_pos hpid] at h ⊢
        exact h
      · rw [backtrack, if_neg hpid] at h ⊢
        cases hl : lookupById closed n.pid with
        | none =>
          simp only [hl] at h
          exact Option.noConfusion h
        | some par =>
          simp only [hl] at h ⊢
          obtain ⟨l0, hl0, rfl⟩ := Option.map_eq_some'.mp h
          rw [ih f2 par l0 hl0 (by omega)]
          rfl

/-- A lookup hit is preserved when a node is appended to the closed
list. -/
theorem lookupById_append (c : List Node) (d : Node) (i : Int) (par : Node)
    (h : lookupById c i = some par) : lookupById (c ++ [d]) i = some par := by
  unfold lookupById at h ⊢
  rw [List.find?_append, h]
  rfl

/-- A successful backward walk is unchanged by appending a node to the
closed list. -/
theorem backtrack_append (closed : List Node) (d : Node) :
    ∀ (f : Nat) (n : Node) (l : List Node), backtrack closed f n = some l →
      backtrack (closed ++ [d]) f n = some l := by
  intro f
  induction f with
  | zero =>
    intro n l h
    simp [backtrack] at h
  | succ g ih =>
    intro n l h
    by_cases hpid : n.pid < 0
    · rw [backtrack, if_pos hpid] at h ⊢
      exact h
    · rw [backtrack, if_neg hpid] at h ⊢
      cases hl : lookupById closed n.pid with
      | none =>
        simp only [hl] at h
        exact Option.noConfusion h
      | some par =>
        simp only [hl] at h
        simp only [lookupById_append closed d n.pid par hl]
        obtain ⟨l0, hl0, rfl⟩ := Option.map_eq_some'.mp h
        rw [ih par l0 hl0]
        rfl


/-- Looking up a freshly appended id finds the appended node. -/
theorem lookupById_append_self (c : List Node) (cur : Node)
    (h : closedContains c cur.id = false) :
    lookupById (c ++ [cur]) cur.id = some cur := by
  unfold lookupById
  rw [List.find?_append]
  have h1 : List.find? (fun n => n.id == cur.id) c = none := by
    rw [List.find?_eq_none]
    intro x hx
    rw [closedContains] at h
    have h2 := List.any_eq_false.mp h x hx
    simpa using h2
  rw [h1]
  simp [List.find?]

/-- `popMin` returns an element of the list, and the remainder is made of
elements of the list. -/
theorem popMin_mem :
    ∀ (l : List Node) (c : Node) (r : List Node),
      popMin l = some (c, r) → c ∈ l ∧ ∀ x ∈ r, x ∈ l := by
  intro l
  induction l with
  | nil =>
    intro c r h
    simp [popMin] at h
  | cons n rest ih =>
    intro c r h
    rw [popMin] at h
    cases hp : popMin rest with
    | none =>
      rw [hp] at h
      obtain ⟨rfl, rfl⟩ : n = c ∧ ([] : List Node) = r := by
        simpa using h
      exact ⟨List.mem_cons_self n rest, by simp⟩
    | some mr =>
      obtain ⟨m, rest'⟩ := mr
      simp only [hp] at h
      obtain ⟨hm, hsub⟩ := ih m rest' hp
      by_cases hc : n.hsq ≤ m.hsq
      · rw [if_pos hc] at h
        obtain ⟨rfl, rfl⟩ : n = c ∧ rest = r := by
          simpa using h
        exact ⟨List.mem_cons_self n rest,
          fun x hx => List.mem_cons_of_mem n hx⟩
      · rw [if_neg hc] at h
        obtain ⟨rfl, rfl⟩ : m = c ∧ n :: rest' = r := by
          simpa using h
        refine ⟨List.mem_cons_of_mem n hm, fun x hx => ?_⟩
        rcases List.mem_cons.mp hx with rfl | hx'
        · exact List.mem_cons_self x rest
        · exact List.mem_cons_of_mem n (hsub x hx')

/-- Every staged jump point has the popped node as parent and a
nonnegative id. -/
theorem jpCollect_mem_pid (ctx : Ctx) (jfuel : Nat) (closed : List Node)
    (cur : Node) :
    ∀ (ms jps : List Node), jpCollect ctx jfuel closed cur ms = some jps →
      ∀ jp ∈ jps, jp.pid = cur.id ∧ 0 ≤ jp.id := by
  intro ms
  induction ms with
  | nil =>
    intro jps h jp hjp
    rw [jpCollect] at h
    obtain rfl : ([] : List Node) = jps := by simpa using h
    simp at hjp
  | cons m ms ih =>
    intro jps h jp hjp
    rw [jpCollect] at h
    cases hj : jump ctx jfuel cur m with
    | none =>
      simp only [hj] at h
      exact Option.noConfusion h
    | some jp0 =>
      simp only [hj] at h
      cases hrest : jpCollect ctx jfuel closed cur ms with
      | none =>
        simp only [hrest] at h
        exact Option.noConfusion h
      | some rest =>
        simp only [hrest] at h
        split at h
        · rename_i hcond
          obtain rfl :
              ({ jp0 with pid := cur.id, hsq := sqDist jp0.x jp0.y ctx.goal }
                :: rest) = jps := by simpa using h
          rcases List.mem_cons.mp hjp with rfl | hjp'
          · exact ⟨rfl, (jump_some_safe ctx jfuel cur m jp0 hj hcond.1).1⟩
          · exact ih rest hrest jp hjp'
        · obtain rfl : rest = jps := by simpa using h
          exact ih rest hrest jp hjp

/-- The pushed prefix is made of staged jump points. -/
theorem takeUpToGoal_subset (goal : Node) :
    ∀ (l : List Node) (x : Node), x ∈ takeUpToGoal goal l → x ∈ l := by
  intro l
  induction l with
  | nil =>
    intro x hx
    simpa [takeUpToGoal] using hx
  | cons a as ih =>
    intro x hx
    rw [takeUpToGoal] at hx
    split at hx
    · simp only [List.mem_singleton] at hx
      exact hx ▸ List.mem_cons_self a as
    · rcases List.mem_cons.mp hx with rfl | hx'
      · exact List.mem_cons_self x as
      · exact List.mem_cons_of_mem a (ih x hx')

/-! ## The reachability invariant of the search loop -/

/-- A node's parent chain resolves through the closed list: the backward
walk succeeds within the closed list's length, starts at the start node
and ends at the node itself. -/
def goodChain (start : Node) (closed : List Node) (n : Node) : Prop :=
  ∃ l, backtrack closed (closed.length + 1) n = some l ∧
    l.head? = some start ∧ l.getLast? = some n

/-- The loop invariant: every node in the open or closed list has a
nonnegative id and a resolvable parent chain. -/
def Inv (start : Node) (s : St) : Prop :=
  ∀ n, n ∈ s.openl ∨ n ∈ s.closed → 0 ≤ n.id ∧ goodChain start s.closed n

/-- A resolvable chain stays resolvable when the closed list grows. -/
theorem goodChain_append (start : Node) (closed : List Node) (cur n : Node)
    (h : goodChain start closed n) : goodChain start (closed ++ [cur]) n := by
  obtain ⟨l, hb, hh, hl⟩ := h
  refine ⟨l, ?_, hh, hl⟩
  have h1 := backtrack_append closed cur (closed.length + 1) n l hb
  exact backtrack_fuel_mono (closed ++ [cur]) (closed.length + 1)
    ((closed ++ [cur]).length + 1) n l h1 (by simp)

/-- A staged jump point, whose parent is the freshly closed node, gets a
resolvable chain in the extended closed list. -/
theorem goodChain_push (start : Node) (closed : List Node) (cur jp : Node)
    (hcl : closedContains closed cur.id = false)
    (hcur : goodChain start closed cur)
    (hpid : jp.pid = cur.id) (hcid : 0 ≤ cur.id) :
    goodChain start (closed ++ [cur]) jp := by
  obtain ⟨l, hb, hh, hl⟩ := hcur
  have hb' : backtrack (closed ++ [cur]) (closed.length + 1) cur = some l :=
    backtrack_append closed cur _ cur l hb
  have hlen : (closed ++ [cur]).length + 1 = closed.length + 1 + 1 := by simp
  refine ⟨l ++ [jp], ?_, ?_, ?_⟩
  · rw [hlen, backtrack, if_neg (by omega : ¬ jp.pid < 0), hpid]
    simp only [lookupById_append_self closed cur hcl]
    rw [hb']
    rfl
  · cases l with
    | nil => simp at hh
    | cons a as => simpa using hh
  · simp

/-- The invariant is preserved by every continuing loop iteration. -/
theorem Inv_step (ctx : Ctx) (jfuel : Nat) (start : Node) (s s' : St)
    (hInv : Inv start s) (h : planStep ctx jfuel s = .next s') :
    Inv start s' := by
  obtain ⟨cur, rest, hpop, hcase⟩ := planStep_next ctx jfuel s s' h
  obtain ⟨hcur_mem, hrest_sub⟩ := popMin_mem s.openl cur rest hpop
  rcases hcase with ⟨_, rfl⟩ | ⟨hcl, _, jps, hjps, rfl⟩
  · intro n hn
    apply hInv
    rcases hn with hn | hn
    · exact Or.inl (hrest_sub n hn)
    · exact Or.inr hn
  · have hcur := hInv cur (Or.inl hcur_mem)
    intro n hn
    simp only [St.openl, St.closed] at hn
    rcases hn with hn | hn
    · rcases List.mem_append.mp hn with hn | hn
      · obtain ⟨h0, hgc⟩ := hInv n (Or.inl (hrest_sub n hn))
        exact ⟨h0, goodChain_append start s.closed cur n hgc⟩
      · have hn' := takeUpToGoal_subset ctx.goal jps n hn
        obtain ⟨hpid, h0⟩ :=
          jpCollect_mem_pid ctx jfuel s.closed cur motions jps hjps n hn'
        exact ⟨h0, goodChain_push start s.closed cur n hcl hcur.2 hpid hcur.1⟩
    · rcases List.mem_append.mp hn with hn | hn
      · obtain ⟨h0, hgc⟩ := hInv n (Or.inr hn)
        exact ⟨h0, goodChain_append start s.closed cur n hgc⟩
      · have heq : n = cur := by simpa using hn
        subst heq
        exact ⟨hcur.1, goodChain_append start s.closed n n hcur.2⟩

/-- A successful finish comes from popping a not-yet-closed node equal to
the goal, and returns the backward walk from it through the closed list
extended with it. -/
theorem planStep_done_true (ctx : Ctx) (jfuel : Nat) (s : St) (p : List Node)
    (h : planStep ctx jfuel s = .done true p) :
    ∃ cur rest, popMin s.openl = some (cur, rest) ∧
      closedContains s.closed cur.id = false ∧ nodeEq cur ctx.goal = true ∧
      p = (backtrack (s.closed ++ [cur])
        ((s.closed ++ [cur]).length + 1) cur).getD [] := by
  rw [planStep] at h
  split at h
  · exact absurd h (by simp)
  · rename_i cur rest hpop
    split at h
    · exact absurd h (by simp)
    · rename_i hcl
      split at h
      · rename_i hg
        refine ⟨cur, rest, hpop, by simpa using hcl, hg, ?_⟩
        injection h with h1 h2
        exact h2.symm
      · split at h
        · exact absurd h (by simp)
        · exact absurd h (by simp)

/-- A failing finish returns the empty path. -/
theorem planStep_done_false (ctx : Ctx) (jfuel : Nat) (s : St) (p : List Node)
    (h : planStep ctx jfuel s = .done false p) : p = [] := by
  rw [planStep] at h
  split at h
  · injection h with h1 h2
    exact h2.symm
  · split at h
    · exact absurd h (by simp)
    · split at h
      · injection h with h1 h2
        exact absurd h1.symm (by simp)
      · split at h
        · exact absurd h (by simp)
        · exact absurd h (by simp)


/-- Invariant-carrying outcome analysis of the search loop: any returned
result is either a success whose path runs from the start node to a node
carrying the goal's id, or a failure with an empty path. -/
theorem planLoop_outcomes (ctx : Ctx) (jfuel : Nat) (start : Node) :
    ∀ (fuel : Nat) (s : St) (found : Bool) (path : List Node),
      Inv start s → planLoop ctx jfuel fuel s = some (found, path) →
      (found = true ∧ path ≠ [] ∧ path.head? = some start ∧
        ∃ g, path.getLast? = some g ∧ g.id = ctx.goal.id) ∨
      (found = false ∧ path = []) := by
  intro fuel
  induction fuel with
  | zero =>
    intro s found path _ h
    exact Option.noConfusion h
  | succ f ih =>
    intro s found path hInv h
    rw [planLoop] at h
    cases hstep : planStep ctx jfuel s with
    | done b p =>
      simp only [hstep] at h
      obtain ⟨rfl, rfl⟩ : b = found ∧ p = path := by
        constructor <;> [exact congrArg Prod.fst (Option.some_inj.mp h);
          exact congrArg Prod.snd (Option.some_inj.mp h)]
      cases b with
      | false =>
        exact Or.inr ⟨rfl, planStep_done_false ctx jfuel s p hstep⟩
      | true =>
        obtain ⟨cur, rest, hpop, hcl, hg, rfl⟩ :=
          planStep_done_true ctx jfuel s p hstep
        obtain ⟨hcid, l, hb, hh, hl⟩ :=
          hInv cur (Or.inl (popMin_mem s.openl cur rest hpop).1)
        have hb1 : backtrack (s.closed ++ [cur]) (s.closed.length + 1) cur = some l :=
          backtrack_append s.closed cur (s.closed.length + 1) cur l hb
        have hb2 : backtrack (s.closed ++ [cur])
            ((s.closed ++ [cur]).length + 1) cur = some l :=
          backtrack_fuel_mono (s.closed ++ [cur]) (s.closed.length + 1)
            ((s.closed ++ [cur]).length + 1) cur l hb1 (by simp)
        rw [hb2]
        simp only [Option.getD_some]
        refine Or.inl ⟨by simp, ?_, ?_, cur, ?_, ?_⟩
        · intro hnil
          subst hnil
          simp at hh
        · simpa using hh
        · simpa using hl
        · simpa [nodeEq] using hg
    | next s2 =>
      simp only [hstep] at h
      exact ih s2 found path (Inv_step ctx jfuel start s s2 hInv hstep) h
    | stuck =>
      simp only [hstep] at h
      exact Option.noConfusion h

/-! ## C4 -/

/-- Claim C4: `plan` has exactly two disjoint outcomes.  Whenever the
embedded loop returns a result, either `found = true` together with a
non-empty path that starts at the start node and ends at a node carrying
the goal's id — produced only by popping the goal from the open list — or
`found = false` together with an empty path, reached when the open list is
exhausted.  The hypotheses state the spec's calling convention for the
start node: a valid nonnegative id and the sentinel parent. -/
theorem claim_C4_theorem (ctx : Ctx) (jfuel fuel : Nat) (start : Node)
    (h0 : 0 ≤ start.id) (h1 : start.pid < 0) (found : Bool) (path : List Node)
    (h : plan ctx jfuel fuel start = some (found, path)) :
    (found = true ∧ path ≠ [] ∧ path.head? = some start ∧
      ∃ g, path.getLast? = some g ∧ g.id = ctx.goal.id) ∨
    (found = false ∧ path = []) := by
  apply planLoop_outcomes ctx jfuel start fuel (initSt start) found path ?_ h
  intro n hn
  have hns : n = start := by
    rcases hn with hn | hn
    · simpa [initSt] using hn
    · simp [initSt] at hn
  subst hns
  refine ⟨h0, [n], ?_, by simp, by simp⟩
  show backtrack (initSt n).closed ((initSt n).closed.length + 1) n = some [n]
  rw [show (initSt n).closed = [] from rfl]
  rw [backtrack, if_pos h1]

/-- C4 fixture: a 2×2 obstacle-free grid with goal `(0,1)` (id 2). -/
def ctxC4 : Ctx :=
  ⟨2, 2, fun _ => 0, 253, ⟨0, 1, 2, -1, 0⟩⟩

/-- C4 fixture: the start node `(0,0)` (id 0). -/
def pC4 : Node := ⟨0, 0, 0, -1, 1⟩

/-- Witness for C4: on the 2×2 free grid from `(0,0)` to `(0,1)`, the plan
returns a successful outcome satisfying the success disjunct. -/
theorem claim_C4_witness :
    (true = true ∧ [pC4, (⟨0, 1, 2, 0, 0⟩ : Node)] ≠ [] ∧
      [pC4, (⟨0, 1, 2, 0, 0⟩ : Node)].head? = some pC4 ∧
      ∃ g, [pC4, (⟨0, 1, 2, 0, 0⟩ : Node)].getLast? = some g ∧
        g.id = ctxC4.goal.id) ∨
    (true = false ∧ [pC4, (⟨0, 1, 2, 0, 0⟩ : Node)] = []) :=
  claim_C4_theorem ctxC4 8 4 pC4 (by decide) (by decide) true
    [pC4, ⟨0, 1, 2, 0, 0⟩] (by decide)

end JPS
